import Mathlib

/-!
TicTacToe (src/script.js)

A shallow embedding of the three modules of `script.js`:

* the `Player` factory and the two players built by the controller;
* the `Gameboard` module: its private `board` array and the operations
  `getBoard`, `placeMark`, `reset`;
* the `GameController` module: `winConditions`, `switchTurn`, `updateMessage`,
  `checkForWin`, `checkForTie`, `render`, `handleCellClick`, `resetGame`, `init`.

JavaScript values are modelled as follows.  A board is a list of strings.  An
array read `board[i]` is an `Option String`, `none` standing for `undefined`
(a negative index or one past the end).  The mutable variables of the two
closures become the fields of `State`; the two DOM collaborators (the `.cell`
nodes and the message element) are fields too, and every call of `render` and
`updateMessage` is also appended to a call log, so that "a render happened" and
"no render happened" are observable.
-/

namespace TicTacToe

/-! ## Player factory -/

/-- The object `{ name, mark }` returned by the factory `Player(name, mark)`. -/
structure Player where
  name : String
  mark : String
deriving DecidableEq, Repr

/-- The constant `player1 = Player("Player X", "X")`. -/
def player1 : Player := Player.mk "Player X" "X"

/-- The constant `player2 = Player("Player O", "O")`. -/
def player2 : Player := Player.mk "Player O" "O"

/-- The value held by the variable `currentPlayer`: a reference to one of the two
player objects.  The variable is only ever assigned `player1` or `player2`
(lines 63, 81, 169), and `===` on it compares references. -/
inductive PlayerRef where
  | player1
  | player2
deriving DecidableEq, Repr

/-- The object a reference points to. -/
def PlayerRef.deref : PlayerRef → Player
  | .player1 => TicTacToe.player1
  | .player2 => TicTacToe.player2

/-- Field access `currentPlayer.name`. -/
def PlayerRef.name (p : PlayerRef) : String := p.deref.name

/-- Field access `currentPlayer.mark`. -/
def PlayerRef.mark (p : PlayerRef) : String := p.deref.mark

/-! ## Gameboard module -/

/-- The private array `board` of the Gameboard module. -/
abbrev Board := List String

namespace Gameboard

/-- The initial value of `board`: nine empty strings. -/
def initialBoard : Board := ["", "", "", "", "", "", "", "", ""]

/-- The array read `board[index]` for an integer index: `undefined` (`none`)
for a negative index or one at or past `board.length`. -/
def read (board : Board) (index : Int) : Option String :=
  if index < 0 then none else board[index.toNat]?

/-- The method `getBoard = () => board`. -/
def getBoard (board : Board) : Board := board

/-- The method `placeMark(index, mark)`: the returned boolean and the board
afterwards.  The guard is `index >= board.length || board[index] !== ""`. -/
def placeMark (board : Board) (index : Int) (mark : String) : Bool × Board :=
  if index ≥ (board.length : Int) ∨ read board index ≠ some "" then
    (false, board)
  else
    (true, board.set index.toNat mark)

/-- The method `reset`: `board` is assigned a fresh array of nine empty strings. -/
def reset (_board : Board) : Board := ["", "", "", "", "", "", "", "", ""]

/-- A call on the public interface of the module that can change `board`. -/
inductive Call where
  | placeMark (index : Int) (mark : String)
  | reset
deriving DecidableEq, Repr

/-- The board after one call. -/
def step (board : Board) : Call → Board
  | .placeMark index mark => (placeMark board index mark).2
  | .reset => reset board

/-- The board after a sequence of calls, starting from the module's initial board. -/
def run (calls : List Call) : Board := calls.foldl step initialBoard

end Gameboard

/-! ## GameController module -/

/-- One DOM node matched by `document.querySelectorAll('.cell')`: its text and
its class list (an ordered set of tokens). -/
structure CellElement where
  textContent : String
  classList : List String
deriving DecidableEq, Repr

/-- A call made to the display: `render()` (recorded with the board it reads
through `Gameboard.getBoard()`) or `updateMessage(text)`. -/
inductive Effect where
  | render (board : Board)
  | updateMessage (text : String)
deriving DecidableEq, Repr

/-- The mutable state reachable from the controller: the Gameboard's `board`,
the variables `currentPlayer` and `isGameOver`, the `.cell` nodes, the text of
`messageElement`, and the log of display calls made so far. -/
structure State where
  board : Board
  currentPlayer : PlayerRef
  isGameOver : Bool
  cells : List CellElement
  messageText : String
  log : List Effect
deriving DecidableEq, Repr

/-- The constant `winConditions`: rows, columns, diagonals. -/
def winConditions : List (Nat × Nat × Nat) :=
  [(0, 1, 2), (3, 4, 5), (6, 7, 8),
   (0, 3, 6), (1, 4, 7), (2, 5, 8),
   (0, 4, 8), (2, 4, 6)]

/-- The helper `updateMessage(text)`: `messageElement.textContent = text`. -/
def updateMessage (s : State) (text : String) : State :=
  { s with messageText := text, log := s.log ++ [Effect.updateMessage text] }

/-- The function `switchTurn`: swap `currentPlayer`, then show whose turn it is. -/
def switchTurn (s : State) : State :=
  let s1 := { s with
    currentPlayer := if s.currentPlayer = PlayerRef.player1 then PlayerRef.player2
                     else PlayerRef.player1 }
  updateMessage s1 (s1.currentPlayer.name ++ "\x27s turn")

/-- JavaScript truthiness of an array read of strings: `undefined` and the
empty string are falsy, every other string is truthy. -/
def truthy : Option String → Bool
  | none => false
  | some v => v != ""

/-- The body of the `for ... of` loop of `checkForWin` over the remaining
conditions: return `true` at the first condition `[a, b, c]` with
`board[a] && board[a] === board[b] && board[a] === board[c]`. -/
def checkForWinLoop (board : Board) : List (Nat × Nat × Nat) → Bool
  | [] => false
  | (a, b, c) :: rest =>
    if truthy board[a]? && board[a]? == board[b]? && board[a]? == board[c]? then
      true
    else
      checkForWinLoop board rest

/-- The function `checkForWin(board)`. -/
def checkForWin (board : Board) : Bool := checkForWinLoop board winConditions

/-- The function `checkForTie(board)`: `board.every(cell => cell != "")`. -/
def checkForTie (board : Board) : Bool := board.all (fun cell => cell != "")

/-- The call `classList.remove(...tokens)`. -/
def classListRemove (classList tokens : List String) : List String :=
  classList.filter (fun t => !tokens.contains t)

/-- The call `classList.add(...tokens)`: each token not yet present is appended. -/
def classListAdd (classList tokens : List String) : List String :=
  tokens.foldl (fun acc t => if acc.contains t then acc else acc ++ [t]) classList

/-- The body of the `forEach` callback of `render` for one node.  Assigning
`undefined` to `textContent` clears the text; `classList.add(undefined, ...)`
adds the token `"undefined"`. -/
def renderCell (board : Board) (index : Nat) (cell : CellElement) : CellElement :=
  let value := board[index]?
  let text := match value with
    | some v => v
    | none => ""
  let cleaned := classListRemove cell.classList ["X", "O", "marked"]
  if value ≠ some "" then
    let token := match value with
      | some v => v
      | none => "undefined"
    { textContent := text, classList := classListAdd cleaned [token, "marked"] }
  else
    { textContent := text, classList := cleaned }

/-- The function `render`: every `.cell` node is synchronised with the board. -/
def render (s : State) : State :=
  let board := Gameboard.getBoard s.board
  { s with cells := s.cells.mapIdx (renderCell board),
           log := s.log ++ [Effect.render board] }

/-- The event handler `handleCellClick`, given the integer parsed from the
clicked node's `data-index`. -/
def handleCellClick (s : State) (index : Int) : State :=
  if s.isGameOver then
    s
  else
    let placed := Gameboard.placeMark s.board index s.currentPlayer.mark
    let placementSuccessful := placed.1
    let s1 := { s with board := placed.2 }
    if placementSuccessful then
      let s2 := render s1
      let currentBoard := Gameboard.getBoard s2.board
      if checkForWin currentBoard then
        { updateMessage s2 (s2.currentPlayer.name ++ " Wins!") with isGameOver := true }
      else if checkForTie currentBoard then
        { updateMessage s2 "It is Tie!" with isGameOver := true }
      else
        switchTurn s2
    else
      s1

/-- The function `resetGame`. -/
def resetGame (s : State) : State :=
  let s1 := { s with board := Gameboard.reset s.board }
  let s2 := { s1 with currentPlayer := PlayerRef.player1 }
  let s3 := { s2 with isGameOver := false }
  let s4 := render s3
  updateMessage s4 (s4.currentPlayer.name ++ "\x27s turn!")

/-- The state when the script has been loaded and before `init` runs: the
module-level initialisers have run, the DOM is as the page provides it. -/
def loadedState (cells : List CellElement) (messageText : String) : State :=
  { board := Gameboard.initialBoard, currentPlayer := PlayerRef.player1,
    isGameOver := false, cells := cells, messageText := messageText, log := [] }

/-- The function `init`, without the listener registration: the initial render
and turn message. -/
def init (s : State) : State :=
  let s1 := render s
  updateMessage s1 (s1.currentPlayer.name ++ "\x27s turn!")

/-! ## Specification-side vocabulary -/

/-- The three cells `a`, `b`, `c` of the board hold one and the same non-empty mark. -/
def lineComplete (board : Board) (a b c : Nat) : Prop :=
  ∃ m : String, m ≠ "" ∧ board[a]? = some m ∧ board[b]? = some m ∧ board[c]? = some m

/-- One of the eight fixed triples (three rows, three columns, two diagonals)
is complete. -/
def someLineComplete (board : Board) : Prop :=
  lineComplete board 0 1 2 ∨ lineComplete board 3 4 5 ∨ lineComplete board 6 7 8 ∨
  lineComplete board 0 3 6 ∨ lineComplete board 1 4 7 ∨ lineComplete board 2 5 8 ∨
  lineComplete board 0 4 8 ∨ lineComplete board 2 4 6

/-- The cell `k` of the board holds a non-empty string. -/
def occupied (board : Board) (k : Nat) : Prop :=
  ∃ m : String, m ≠ "" ∧ board[k]? = some m

/-- Every one of the nine cells is non-empty. -/
def fullyFilled (board : Board) : Prop :=
  ∀ k : Nat, k < 9 → occupied board k

/-- Every cell is empty, "X" or "O". -/
def validCells (board : Board) : Prop :=
  ∀ cell ∈ board, cell = "" ∨ cell = "X" ∨ cell = "O"

instance instDecidableOccupied (board : Board) (k : Nat) : Decidable (occupied board k) :=
  decidable_of_iff (truthy board[k]? = true) (by
    unfold occupied
    cases board[k]? <;> simp [truthy])

instance instDecidableLineComplete (board : Board) (a b c : Nat) :
    Decidable (lineComplete board a b c) :=
  decidable_of_iff
    (truthy board[a]? = true ∧ board[a]? = board[b]? ∧ board[a]? = board[c]?) (by
    unfold lineComplete
    cases ha : board[a]? with
    | none => simp [truthy]
    | some v =>
      simp only [truthy, bne_iff_ne, ne_eq, Option.some.injEq]
      constructor
      · rintro ⟨h1, h2, h3⟩
        exact ⟨v, h1, rfl, h2.symm, h3.symm⟩
      · rintro ⟨m, h1, h2, h3, h4⟩
        subst h2
        exact ⟨h1, h3.symm, h4.symm⟩)

instance instDecidableSomeLineComplete (board : Board) : Decidable (someLineComplete board) := by
  unfold someLineComplete
  infer_instance

instance instDecidableFullyFilled (board : Board) : Decidable (fullyFilled board) := by
  unfold fullyFilled
  infer_instance

instance instDecidableValidCells (board : Board) : Decidable (validCells board) := by
  unfold validCells
  infer_instance

/-! ## Events and reachable states -/

/-- An input event: a click on a `.cell` node whose `data-index` parses to
`index` (listener `handleCellClick`), or a click on the reset button (listener
`resetGame`). -/
inductive Event where
  | cellClicked (index : Int)
  | resetRequested
deriving DecidableEq, Repr

/-- The listener registered by `init` for the event is run on the state. -/
def dispatch (s : State) : Event → State
  | .cellClicked index => handleCellClick s index
  | .resetRequested => resetGame s

/-- The events are handled one after the other, each to completion. -/
def runEvents (s : State) (events : List Event) : State := events.foldl dispatch s

/-- The state is reached from initialisation, on some page, by some sequence of
cell clicks and reset clicks. -/
def Reachable (s : State) : Prop :=
  ∃ (cells : List CellElement) (messageText : String) (events : List Event),
    s = runEvents (init (loadedState cells messageText)) events

/-- The facts that hold of every reachable state: the board has nine valid
cells; the game-over flag is set exactly when a triple is complete or the board
is full; every complete triple holds the mark of the current player; the marks
are balanced and, while the game runs, the current player is the one to move. -/
def Invariant (s : State) : Prop :=
  s.board.length = 9 ∧ validCells s.board ∧
  (s.isGameOver = true ↔ (someLineComplete s.board ∨ fullyFilled s.board)) ∧
  (∀ t ∈ winConditions, lineComplete s.board t.1 t.2.1 t.2.2 →
    s.board[t.1]? = some s.currentPlayer.mark) ∧
  ((s.board.count "X" = s.board.count "O" ∧
      (s.isGameOver = false → s.currentPlayer = PlayerRef.player1)) ∨
   (s.board.count "X" = s.board.count "O" + 1 ∧
      (s.isGameOver = false → s.currentPlayer = PlayerRef.player2)))

/-! ## Gameboard: placeMark and reset -/

/-- A rejected placement, unfolded: the guard of `placeMark` holds. -/
theorem placeMark_of_guard (board : Board) (index : Int) (mark : String)
    (h : index ≥ (board.length : Int) ∨ Gameboard.read board index ≠ some "") :
    Gameboard.placeMark board index mark = (false, board) := by
  unfold Gameboard.placeMark
  rw [if_pos h]

/-- An accepted placement, unfolded: the guard of `placeMark` fails. -/
theorem placeMark_of_not_guard (board : Board) (index : Int) (mark : String)
    (h : ¬ (index ≥ (board.length : Int) ∨ Gameboard.read board index ≠ some "")) :
    Gameboard.placeMark board index mark = (true, board.set index.toNat mark) := by
  unfold Gameboard.placeMark
  rw [if_neg h]

/-- The guard of `placeMark` on a nine-cell board holds exactly for an index
outside [0,8] or a cell that is not the empty string. -/
theorem guard_iff (board : Board) (index : Int) (hlen : board.length = 9) :
    (index ≥ (board.length : Int) ∨ Gameboard.read board index ≠ some "") ↔
      (index < 0 ∨ 8 < index ∨ ∃ m : String, board[index.toNat]? = some m ∧ m ≠ "") := by
  unfold Gameboard.read
  rw [hlen]
  by_cases hneg : index < 0
  · simp [hneg]
  · by_cases hbig : 8 < index
    · have hge : index ≥ ((9 : Nat) : Int) := by push_cast; omega
      exact ⟨fun _ => Or.inr (Or.inl hbig), fun _ => Or.inl hge⟩
    · have hlt : index.toNat < board.length := by omega
      have hnot : ¬ index ≥ ((9 : Nat) : Int) := by push_cast; omega
      simp only [hneg, hbig, hnot, if_false, false_or]
      rw [List.getElem?_eq_getElem hlt]
      simp

/-- On a nine-cell board a placement outside [0,8] or on a non-empty cell is
rejected. -/
theorem placeMark_eq_of_rejected (board : Board) (index : Int) (mark : String)
    (hlen : board.length = 9)
    (h : index < 0 ∨ 8 < index ∨ ∃ m : String, board[index.toNat]? = some m ∧ m ≠ "") :
    Gameboard.placeMark board index mark = (false, board) :=
  placeMark_of_guard board index mark ((guard_iff board index hlen).mpr h)

/-- On a nine-cell board a placement on an empty cell in [0,8] is accepted and
writes the mark with `board[index] = mark`. -/
theorem placeMark_eq_of_accepted (board : Board) (index : Int) (mark : String)
    (hlen : board.length = 9) (h0 : 0 ≤ index) (h8 : index ≤ 8)
    (hempty : board[index.toNat]? = some "") :
    Gameboard.placeMark board index mark = (true, board.set index.toNat mark) := by
  apply placeMark_of_not_guard
  rw [guard_iff board index hlen]
  rintro (h | h | ⟨v, hv, hne⟩)
  · omega
  · omega
  · rw [hempty] at hv
    exact hne (Option.some.inj hv).symm

/-- The array write `board[index] = mark` inside a nine-cell board: the length
is kept, the cell holds the mark, every other cell is as before. -/
theorem set_shape (board : Board) (index : Int) (mark : String)
    (hlen : board.length = 9) (h0 : 0 ≤ index) (h8 : index ≤ 8) :
    (board.set index.toNat mark).length = 9 ∧
      (board.set index.toNat mark)[index.toNat]? = some mark ∧
      ∀ j : Nat, j ≠ index.toNat → (board.set index.toNat mark)[j]? = board[j]? := by
  have hlt : index.toNat < board.length := by omega
  refine ⟨by simp [hlen], ?_, ?_⟩
  · rw [List.getElem?_set_self hlt]
  · intro j hj
    rw [List.getElem?_set_ne (Ne.symm hj)]

/-- Claim C1: on a nine-cell board, for every integer index and every mark, if
the index is outside [0,8] or the cell at that index is non-empty, `placeMark`
returns false and the board afterwards is the board before. -/
theorem placeMark_rejects (board : Board) (index : Int) (mark : String)
    (hlen : board.length = 9)
    (h : index < 0 ∨ 8 < index ∨ ∃ m : String, board[index.toNat]? = some m ∧ m ≠ "") :
    (Gameboard.placeMark board index mark).1 = false ∧
      (Gameboard.placeMark board index mark).2 = board := by
  rw [placeMark_eq_of_rejected board index mark hlen h]
  exact ⟨rfl, rfl⟩

/-- Witness for C1: an occupied cell, on the board with "X" in cell 0. -/
theorem placeMark_rejects_witness :
    (Gameboard.placeMark ["X", "", "", "", "", "", "", "", ""] 0 "O").1 = false ∧
      (Gameboard.placeMark ["X", "", "", "", "", "", "", "", ""] 0 "O").2
        = ["X", "", "", "", "", "", "", "", ""] :=
  placeMark_rejects ["X", "", "", "", "", "", "", "", ""] 0 "O" (by decide)
    (Or.inr (Or.inr ⟨"X", by decide, by decide⟩))

/-- Claim C2: on a nine-cell board, for every index in [0,8] whose cell is empty
and every mark, `placeMark` returns true, the resulting board has length 9, holds
the mark at the index and agrees with the previous board at every other index;
and for every index whatsoever the board afterwards is either the board before
or differs from it at most in the target cell. -/
theorem placeMark_accepts (board : Board) (index : Int) (mark : String)
    (hlen : board.length = 9) (h0 : 0 ≤ index) (h8 : index ≤ 8)
    (hempty : board[index.toNat]? = some "") :
    (Gameboard.placeMark board index mark).1 = true ∧
      (Gameboard.placeMark board index mark).2.length = 9 ∧
      (Gameboard.placeMark board index mark).2[index.toNat]? = some mark ∧
      (∀ j : Nat, j ≠ index.toNat →
        (Gameboard.placeMark board index mark).2[j]? = board[j]?) ∧
      (∀ (i : Int) (m : String),
        (Gameboard.placeMark board i m).2 = board ∨
          (0 ≤ i ∧ i ≤ 8 ∧ (Gameboard.placeMark board i m).2.length = 9 ∧
            (Gameboard.placeMark board i m).2[i.toNat]? = some m ∧
            ∀ j : Nat, j ≠ i.toNat → (Gameboard.placeMark board i m).2[j]? = board[j]?)) := by
  rw [placeMark_eq_of_accepted board index mark hlen h0 h8 hempty]
  obtain ⟨s1, s2, s3⟩ := set_shape board index mark hlen h0 h8
  refine ⟨rfl, s1, s2, s3, ?_⟩
  intro i m
  by_cases hg : i < 0 ∨ 8 < i ∨ ∃ v : String, board[i.toNat]? = some v ∧ v ≠ ""
  · left
    rw [placeMark_eq_of_rejected board i m hlen hg]
  · right
    have hi0 : 0 ≤ i := by
      by_contra hc
      exact hg (Or.inl (by omega))
    have hi8 : i ≤ 8 := by
      by_contra hc
      exact hg (Or.inr (Or.inl (by omega)))
    have hlt : i.toNat < board.length := by omega
    have hie : board[i.toNat]? = some "" := by
      rw [List.getElem?_eq_getElem hlt]
      by_contra hc
      exact hg (Or.inr (Or.inr ⟨board[i.toNat], List.getElem?_eq_getElem hlt,
        fun he => hc (by rw [he])⟩))
    rw [placeMark_eq_of_accepted board i m hlen hi0 hi8 hie]
    obtain ⟨t1, t2, t3⟩ := set_shape board i m hlen hi0 hi8
    exact ⟨hi0, hi8, t1, t2, t3⟩

/-- Witness for C2: "O" placed in cell 4 of the board with "X" in cell 0. -/
theorem placeMark_accepts_witness :
    (Gameboard.placeMark ["X", "", "", "", "", "", "", "", ""] 4 "O").1 = true ∧
      (Gameboard.placeMark ["X", "", "", "", "", "", "", "", ""] 4 "O").2
        = ["X", "", "", "", "O", "", "", "", ""] :=
  ⟨(placeMark_accepts ["X", "", "", "", "", "", "", "", ""] 4 "O" (by decide) (by decide)
      (by decide) (by decide)).1, by decide⟩

/-- Claim C3: whatever the board was, and in particular after any sequence of
`placeMark` and `reset` calls from the initial board, `getBoard()` after
`reset()` returns exactly nine empty cells. -/
theorem reset_getBoard :
    (∀ board : Board,
      Gameboard.getBoard (Gameboard.reset board) = List.replicate 9 "") ∧
    (∀ calls : List Gameboard.Call,
      Gameboard.getBoard (Gameboard.reset (Gameboard.run calls)) = List.replicate 9 "" ∧
      (Gameboard.getBoard (Gameboard.reset (Gameboard.run calls))).length = 9 ∧
      ∀ cell ∈ Gameboard.getBoard (Gameboard.reset (Gameboard.run calls)), cell = "") := by
  have h : ∀ board : Board,
      Gameboard.getBoard (Gameboard.reset board) = List.replicate 9 "" := by
    intro board
    rfl
  refine ⟨h, fun calls => ⟨h _, ?_, ?_⟩⟩
  · rw [h]
    rfl
  · rw [h]
    intro cell hc
    exact List.eq_of_mem_replicate hc

/-! ## Win and tie detection -/

/-- The test made by `checkForWin` on one condition is the completeness of that line. -/
theorem lineTest_iff (board : Board) (a b c : Nat) :
    (truthy board[a]? && board[a]? == board[b]? && board[a]? == board[c]?) = true ↔
      lineComplete board a b c := by
  unfold lineComplete
  cases ha : board[a]? with
  | none => simp [truthy]
  | some v =>
    simp only [truthy, Bool.and_eq_true, bne_iff_ne, ne_eq, beq_iff_eq, Option.some.injEq]
    constructor
    · rintro ⟨⟨h1, h2⟩, h3⟩
      exact ⟨v, h1, rfl, h2.symm, h3.symm⟩
    · rintro ⟨m, h1, h2, h3, h4⟩
      subst h2
      exact ⟨⟨h1, h3.symm⟩, h4.symm⟩

/-- The loop of `checkForWin` returns true exactly when one of the listed
conditions is a complete line. -/
theorem checkForWinLoop_iff (board : Board) (conditions : List (Nat × Nat × Nat)) :
    checkForWinLoop board conditions = true ↔
      ∃ t ∈ conditions, lineComplete board t.1 t.2.1 t.2.2 := by
  induction conditions with
  | nil => simp [checkForWinLoop]
  | cons t rest ih =>
    obtain ⟨a, b, c⟩ := t
    unfold checkForWinLoop
    by_cases h : (truthy board[a]? && board[a]? == board[b]? && board[a]? == board[c]?) = true
    · rw [if_pos h]
      simp only [List.mem_cons, exists_eq_or_imp, true_iff]
      exact Or.inl ((lineTest_iff board a b c).mp h)
    · rw [if_neg h, ih]
      simp only [List.mem_cons, exists_eq_or_imp]
      constructor
      · exact fun hr => Or.inr hr
      · rintro (hl | hr)
        · exact absurd ((lineTest_iff board a b c).mpr hl) h
        · exact hr

/-- The function `checkForWin` returns true exactly when one of the eight fixed
triples is complete, on every board. -/
theorem checkForWin_iff (board : Board) :
    checkForWin board = true ↔ someLineComplete board := by
  unfold checkForWin someLineComplete winConditions
  rw [checkForWinLoop_iff]
  simp only [List.mem_cons, List.mem_singleton, exists_eq_or_imp, exists_eq_left,
    List.not_mem_nil, false_and, exists_false, or_false]

/-- A list of length nine is a list of nine cells. -/
theorem length_nine (board : Board) (hlen : board.length = 9) :
    ∃ c0 c1 c2 c3 c4 c5 c6 c7 c8 : String, board = [c0, c1, c2, c3, c4, c5, c6, c7, c8] := by
  match board, hlen with
  | [c0, c1, c2, c3, c4, c5, c6, c7, c8], _ => exact ⟨c0, c1, c2, c3, c4, c5, c6, c7, c8, rfl⟩

/-- On a nine-cell board `checkForTie` returns true exactly when every one of
the nine cells is non-empty. -/
theorem checkForTie_iff (board : Board) (hlen : board.length = 9) :
    checkForTie board = true ↔ fullyFilled board := by
  obtain ⟨c0, c1, c2, c3, c4, c5, c6, c7, c8, rfl⟩ := length_nine board hlen
  unfold checkForTie fullyFilled occupied
  constructor
  · intro h k hk
    simp only [List.all_cons, List.all_nil, Bool.and_true, Bool.and_eq_true, bne_iff_ne,
      ne_eq] at h
    obtain ⟨h0, h1, h2, h3, h4, h5, h6, h7, h8⟩ := h
    interval_cases k
    · exact ⟨c0, h0, rfl⟩
    · exact ⟨c1, h1, rfl⟩
    · exact ⟨c2, h2, rfl⟩
    · exact ⟨c3, h3, rfl⟩
    · exact ⟨c4, h4, rfl⟩
    · exact ⟨c5, h5, rfl⟩
    · exact ⟨c6, h6, rfl⟩
    · exact ⟨c7, h7, rfl⟩
    · exact ⟨c8, h8, rfl⟩
  · intro h
    have cell : ∀ (k : Nat) (c : String), k < 9 →
        [c0, c1, c2, c3, c4, c5, c6, c7, c8][k]? = some c → c ≠ "" := by
      intro k c hk hc
      obtain ⟨m, hm, hkm⟩ := h k hk
      rw [hc] at hkm
      rw [Option.some.inj hkm]
      exact hm
    simp only [List.all_cons, List.all_nil, Bool.and_true, Bool.and_eq_true, bne_iff_ne,
      ne_eq]
    exact ⟨cell 0 c0 (by decide) rfl, cell 1 c1 (by decide) rfl, cell 2 c2 (by decide) rfl,
      cell 3 c3 (by decide) rfl, cell 4 c4 (by decide) rfl, cell 5 c5 (by decide) rfl,
      cell 6 c6 (by decide) rfl, cell 7 c7 (by decide) rfl, cell 8 c8 (by decide) rfl⟩

/-- Claim C4: for every nine-cell board whose cells are each empty, "X" or "O",
`checkForWin` returns true if and only if at least one of the eight fixed
triples (rows 0-1-2, 3-4-5, 6-7-8; columns 0-3-6, 1-4-7, 2-5-8; diagonals 0-4-8,
2-4-6) has three non-empty identical cells; it returns true on the board with
the top row "X" and on the board alternating "X" and "O". -/
theorem checkForWin_correct :
    (∀ board : Board, board.length = 9 → validCells board →
      (checkForWin board = true ↔
        (lineComplete board 0 1 2 ∨ lineComplete board 3 4 5 ∨ lineComplete board 6 7 8 ∨
         lineComplete board 0 3 6 ∨ lineComplete board 1 4 7 ∨ lineComplete board 2 5 8 ∨
         lineComplete board 0 4 8 ∨ lineComplete board 2 4 6))) ∧
    checkForWin ["X", "X", "X", "", "", "", "", "", ""] = true ∧
    checkForWin ["X", "O", "X", "O", "X", "O", "X", "O", "X"] = true := by
  refine ⟨fun board _ _ => checkForWin_iff board, by decide, by decide⟩

/-- Witness for C4: the board with "O" down the middle column. -/
theorem checkForWin_correct_witness :
    checkForWin ["X", "O", "", "X", "O", "", "", "O", "X"] = true :=
  (checkForWin_correct.1 ["X", "O", "", "X", "O", "", "", "O", "X"] (by decide)
    (by decide)).mpr (by decide)

/-! ## GameController: handleCellClick and resetGame -/

/-- The handler does nothing once `isGameOver` is set. -/
theorem handleCellClick_of_gameOver (s : State) (index : Int) (hgo : s.isGameOver = true) :
    handleCellClick s index = s := by
  unfold handleCellClick
  rw [if_pos hgo]

/-- The handler on a rejected placement: the state is kept. -/
theorem handleCellClick_of_rejected (s : State) (index : Int) (hgo : s.isGameOver = false)
    (hplace : Gameboard.placeMark s.board index s.currentPlayer.mark = (false, s.board)) :
    handleCellClick s index = s := by
  obtain ⟨board, player, over, cells, text, log⟩ := s
  simp only at hgo hplace
  subst hgo
  unfold handleCellClick
  simp [hplace]

/-- The handler on an accepted placement: render, then win, tie or next turn. -/
theorem handleCellClick_of_placed (s : State) (index : Int) (board : Board)
    (hgo : s.isGameOver = false)
    (hplace : Gameboard.placeMark s.board index s.currentPlayer.mark = (true, board)) :
    handleCellClick s index =
      if checkForWin board then
        { updateMessage (render { s with board := board })
            (s.currentPlayer.name ++ " Wins!") with isGameOver := true }
      else if checkForTie board then
        { updateMessage (render { s with board := board }) "It is Tie!" with
            isGameOver := true }
      else
        switchTurn (render { s with board := board }) := by
  unfold handleCellClick
  simp [hgo, hplace, render, Gameboard.getBoard]

/-- The function `placeMark` never changes the length of the board. -/
theorem placeMark_length (board : Board) (index : Int) (mark : String) :
    (Gameboard.placeMark board index mark).2.length = board.length := by
  unfold Gameboard.placeMark
  split <;> simp

/-- Claim C5: in a state that is not game over, when the click's placement
succeeds and the resulting board is fully filled with none of the eight triples
complete, `handleCellClick` reports a tie and not a win: the message is
"It is Tie!", the game-over flag is set and the current player is unchanged. -/
theorem tie_reported (s : State) (index : Int)
    (hgo : s.isGameOver = false) (hlen : s.board.length = 9)
    (hplace : (Gameboard.placeMark s.board index s.currentPlayer.mark).1 = true)
    (hfull : fullyFilled (Gameboard.placeMark s.board index s.currentPlayer.mark).2)
    (hnoline : ¬ someLineComplete (Gameboard.placeMark s.board index s.currentPlayer.mark).2) :
    (handleCellClick s index).messageText = "It is Tie!" ∧
      (handleCellClick s index).messageText ≠ s.currentPlayer.name ++ " Wins!" ∧
      (handleCellClick s index).isGameOver = true ∧
      (handleCellClick s index).currentPlayer = s.currentPlayer ∧
      (handleCellClick s index).log =
        s.log ++ [Effect.render (Gameboard.placeMark s.board index s.currentPlayer.mark).2,
                  Effect.updateMessage "It is Tie!"] := by
  have hp : Gameboard.placeMark s.board index s.currentPlayer.mark =
      (true, (Gameboard.placeMark s.board index s.currentPlayer.mark).2) := by
    rw [← hplace]
  have hlen2 : (Gameboard.placeMark s.board index s.currentPlayer.mark).2.length = 9 := by
    rw [placeMark_length, hlen]
  have hwin : checkForWin (Gameboard.placeMark s.board index s.currentPlayer.mark).2 = false := by
    rw [Bool.eq_false_iff, Ne, checkForWin_iff]
    exact hnoline
  have htie : checkForTie (Gameboard.placeMark s.board index s.currentPlayer.mark).2 = true :=
    (checkForTie_iff _ hlen2).mpr hfull
  have hne : ∀ p : PlayerRef, "It is Tie!" ≠ p.name ++ " Wins!" := by
    intro p
    cases p <;> decide
  rw [handleCellClick_of_placed s index _ hgo hp, hwin, htie]
  refine ⟨rfl, hne s.currentPlayer, rfl, rfl, ?_⟩
  simp [updateMessage, render, Gameboard.getBoard]

/-- Witness for C5: "X" fills the last cell of a board without a complete line. -/
theorem tie_reported_witness :
    (handleCellClick
      { board := ["X", "O", "X", "X", "O", "O", "O", "X", ""],
        currentPlayer := PlayerRef.player1, isGameOver := false, cells := [],
        messageText := "Player X\x27s turn", log := [] } 8).messageText = "It is Tie!" :=
  (tie_reported
    { board := ["X", "O", "X", "X", "O", "O", "O", "X", ""],
      currentPlayer := PlayerRef.player1, isGameOver := false, cells := [],
      messageText := "Player X\x27s turn", log := [] } 8
    (by decide) (by decide) (by decide) (by decide) (by decide)).1

/-- Claim C6: in a state whose game-over flag is set, `handleCellClick` with any
index returns the state as it was (board, current player, flag, message, cell
nodes and the log of display calls: no render, no message update), and so does
any sequence of further clicks. -/
theorem gameOver_ignores_clicks (s : State) (hgo : s.isGameOver = true) :
    (∀ index : Int, handleCellClick s index = s) ∧
    (∀ clicks : List Int, clicks.foldl handleCellClick s = s) ∧
    (∀ clicks : List Int,
      (clicks.foldl handleCellClick s).board = s.board ∧
      (clicks.foldl handleCellClick s).currentPlayer = s.currentPlayer ∧
      (clicks.foldl handleCellClick s).isGameOver = true ∧
      (clicks.foldl handleCellClick s).messageText = s.messageText ∧
      (clicks.foldl handleCellClick s).log = s.log) := by
  have hfold : ∀ clicks : List Int, clicks.foldl handleCellClick s = s := by
    intro clicks
    induction clicks with
    | nil => rfl
    | cons index rest ih =>
      rw [List.foldl_cons, handleCellClick_of_gameOver s index hgo]
      exact ih
  refine ⟨fun index => handleCellClick_of_gameOver s index hgo, hfold, ?_⟩
  intro clicks
  rw [hfold clicks]
  exact ⟨rfl, rfl, hgo, rfl, rfl⟩

/-- Witness for C6: a click on an empty cell after "X" has won the top row. -/
theorem gameOver_ignores_clicks_witness :
    handleCellClick
      { board := ["X", "X", "X", "O", "O", "", "", "", ""],
        currentPlayer := PlayerRef.player1, isGameOver := true, cells := [],
        messageText := "Player X Wins!", log := [] } 5
      = { board := ["X", "X", "X", "O", "O", "", "", "", ""],
          currentPlayer := PlayerRef.player1, isGameOver := true, cells := [],
          messageText := "Player X Wins!", log := [] } :=
  (gameOver_ignores_clicks
    { board := ["X", "X", "X", "O", "O", "", "", "", ""],
      currentPlayer := PlayerRef.player1, isGameOver := true, cells := [],
      messageText := "Player X Wins!", log := [] } rfl).1 5

/-- The handler on an accepted placement that ends neither in a win nor in a
tie: the board is rendered and the turn switched. -/
theorem handleCellClick_of_continue (s : State) (index : Int)
    (hgo : s.isGameOver = false) (hlen : s.board.length = 9)
    (hplace : (Gameboard.placeMark s.board index s.currentPlayer.mark).1 = true)
    (hnoline : ¬ someLineComplete (Gameboard.placeMark s.board index s.currentPlayer.mark).2)
    (hnotfull : ¬ fullyFilled (Gameboard.placeMark s.board index s.currentPlayer.mark).2) :
    handleCellClick s index =
      switchTurn (render { s with
        board := (Gameboard.placeMark s.board index s.currentPlayer.mark).2 }) := by
  have hp : Gameboard.placeMark s.board index s.currentPlayer.mark =
      (true, (Gameboard.placeMark s.board index s.currentPlayer.mark).2) := by
    rw [← hplace]
  have hlen2 : (Gameboard.placeMark s.board index s.currentPlayer.mark).2.length = 9 := by
    rw [placeMark_length, hlen]
  have hwin : checkForWin (Gameboard.placeMark s.board index s.currentPlayer.mark).2 = false := by
    rw [Bool.eq_false_iff, Ne, checkForWin_iff]
    exact hnoline
  have htie : checkForTie (Gameboard.placeMark s.board index s.currentPlayer.mark).2 = false := by
    rw [Bool.eq_false_iff, Ne, checkForTie_iff _ hlen2]
    exact hnotfull
  rw [handleCellClick_of_placed s index _ hgo hp, hwin, htie]
  rfl

/-- The function `switchTurn` on a rendered state: the player is swapped, the
flag and the board are kept. -/
theorem switchTurn_render (s : State) :
    (switchTurn (render s)).currentPlayer ≠ s.currentPlayer ∧
      (s.currentPlayer = PlayerRef.player1 →
        (switchTurn (render s)).currentPlayer = PlayerRef.player2) ∧
      (s.currentPlayer = PlayerRef.player2 →
        (switchTurn (render s)).currentPlayer = PlayerRef.player1) ∧
      (switchTurn (render s)).isGameOver = s.isGameOver ∧
      (switchTurn (render s)).board = s.board := by
  obtain ⟨board, player, over, cells, text, log⟩ := s
  cases player <;> simp [switchTurn, render, updateMessage]

/-- Of the two player references, the one that differs from the one that
differs from `p` is `p`. -/
theorem playerRef_back (p q r : PlayerRef) (hq : q ≠ p) (hr : r ≠ q) : r = p := by
  cases p <;> cases q <;> cases r <;> simp_all

/-- Claim C7: in a state that is not game over, a click whose placement succeeds
and whose resulting board has no complete triple and is not full sets
`currentPlayer` to the other of the two players and leaves the game-over flag
false; a second such click from the resulting state sets `currentPlayer` back to
the player who was current before the first. -/
theorem turn_alternates (s : State) (index : Int)
    (hgo : s.isGameOver = false) (hlen : s.board.length = 9)
    (hplace : (Gameboard.placeMark s.board index s.currentPlayer.mark).1 = true)
    (hnoline : ¬ someLineComplete (Gameboard.placeMark s.board index s.currentPlayer.mark).2)
    (hnotfull : ¬ fullyFilled (Gameboard.placeMark s.board index s.currentPlayer.mark).2) :
    (handleCellClick s index).currentPlayer ≠ s.currentPlayer ∧
      (s.currentPlayer = PlayerRef.player1 →
        (handleCellClick s index).currentPlayer = PlayerRef.player2) ∧
      (s.currentPlayer = PlayerRef.player2 →
        (handleCellClick s index).currentPlayer = PlayerRef.player1) ∧
      (handleCellClick s index).isGameOver = false ∧
      (∀ index2 : Int,
        (Gameboard.placeMark (handleCellClick s index).board index2
          (handleCellClick s index).currentPlayer.mark).1 = true →
        ¬ someLineComplete (Gameboard.placeMark (handleCellClick s index).board index2
          (handleCellClick s index).currentPlayer.mark).2 →
        ¬ fullyFilled (Gameboard.placeMark (handleCellClick s index).board index2
          (handleCellClick s index).currentPlayer.mark).2 →
        (handleCellClick (handleCellClick s index) index2).currentPlayer = s.currentPlayer ∧
          (handleCellClick (handleCellClick s index) index2).isGameOver = false) := by
  have h1 := handleCellClick_of_continue s index hgo hlen hplace hnoline hnotfull
  obtain ⟨a1, a2, a3, a4, a5⟩ := switchTurn_render { s with
    board := (Gameboard.placeMark s.board index s.currentPlayer.mark).2 }
  have hgo1 : (handleCellClick s index).isGameOver = false := by
    rw [h1, a4]
    exact hgo
  have hlen1 : (handleCellClick s index).board.length = 9 := by
    rw [h1, a5]
    show (Gameboard.placeMark s.board index s.currentPlayer.mark).2.length = 9
    rw [placeMark_length, hlen]
  have hne1 : (handleCellClick s index).currentPlayer ≠ s.currentPlayer := by
    rw [h1]
    exact a1
  refine ⟨hne1, ?_, ?_, hgo1, ?_⟩
  · rw [h1]
    exact a2
  · rw [h1]
    exact a3
  · intro index2 hplace2 hnoline2 hnotfull2
    have h2 := handleCellClick_of_continue (handleCellClick s index) index2 hgo1 hlen1
      hplace2 hnoline2 hnotfull2
    obtain ⟨b1, -, -, b4, -⟩ := switchTurn_render { handleCellClick s index with
      board := (Gameboard.placeMark (handleCellClick s index).board index2
        (handleCellClick s index).currentPlayer.mark).2 }
    constructor
    · rw [h2]
      exact playerRef_back s.currentPlayer (handleCellClick s index).currentPlayer _ hne1 b1
    · rw [h2, b4]
      exact hgo1

/-- Witness for C7: the first two clicks of a game, on cells 0 and 4. -/
theorem turn_alternates_witness :
    (handleCellClick (loadedState [] "") 0).currentPlayer = PlayerRef.player2 ∧
      (handleCellClick (handleCellClick (loadedState [] "") 0) 4).currentPlayer
        = PlayerRef.player1 :=
  ⟨(turn_alternates (loadedState [] "") 0 (by decide) (by decide) (by decide) (by decide)
      (by decide)).2.1 rfl,
   ((turn_alternates (loadedState [] "") 0 (by decide) (by decide) (by decide) (by decide)
      (by decide)).2.2.2.2 4 (by decide) (by decide) (by decide)).1⟩

/-- The handler on an accepted placement, whatever the outcome: the new board
is stored, it is rendered once onto the cell nodes, and one message follows. -/
theorem handleCellClick_placed_frame (s : State) (index : Int) (board : Board)
    (hgo : s.isGameOver = false)
    (hplace : Gameboard.placeMark s.board index s.currentPlayer.mark = (true, board)) :
    (handleCellClick s index).board = board ∧
      (handleCellClick s index).cells = s.cells.mapIdx (renderCell board) ∧
      (handleCellClick s index).log =
        s.log ++ [Effect.render board,
                  Effect.updateMessage (handleCellClick s index).messageText] := by
  rw [handleCellClick_of_placed s index board hgo hplace]
  cases checkForWin board <;> cases checkForTie board <;>
    simp [switchTurn, updateMessage, render, Gameboard.getBoard]

/-- Claim C8: in a state that is not game over with current player `p`, a click
on an index in [0,8] whose cell is empty leaves a nine-cell board that holds
the mark of `p` ("X" for player 1, "O" for player 2) at the clicked index,
differs there from the board before, and agrees with it at every other index;
that new board is rendered onto the cell nodes, the render being the first
display call logged by the click. -/
theorem click_places_mark (s : State) (index : Int)
    (hgo : s.isGameOver = false) (hlen : s.board.length = 9)
    (h0 : 0 ≤ index) (h8 : index ≤ 8) (hempty : s.board[index.toNat]? = some "") :
    (handleCellClick s index).board.length = 9 ∧
      (handleCellClick s index).board[index.toNat]? = some s.currentPlayer.mark ∧
      s.currentPlayer.mark = (if s.currentPlayer = PlayerRef.player1 then "X" else "O") ∧
      (handleCellClick s index).board[index.toNat]? ≠ s.board[index.toNat]? ∧
      (∀ j : Nat, j ≠ index.toNat →
        (handleCellClick s index).board[j]? = s.board[j]?) ∧
      (handleCellClick s index).cells
        = s.cells.mapIdx (renderCell (handleCellClick s index).board) ∧
      (∃ text : String, (handleCellClick s index).log =
        s.log ++ [Effect.render (handleCellClick s index).board,
                  Effect.updateMessage text]) := by
  have hp := placeMark_eq_of_accepted s.board index s.currentPlayer.mark hlen h0 h8 hempty
  obtain ⟨p2, p3, p4⟩ := set_shape s.board index s.currentPlayer.mark hlen h0 h8
  obtain ⟨f1, f2, f3⟩ := handleCellClick_placed_frame s index _ hgo hp
  have hmark : s.currentPlayer.mark = (if s.currentPlayer = PlayerRef.player1 then "X" else "O") := by
    cases s.currentPlayer <;> decide
  have hmark2 : s.currentPlayer.mark ≠ "" := by
    cases s.currentPlayer <;> decide
  rw [f1]
  refine ⟨p2, p3, hmark, ?_, p4, f2, _, f3⟩
  rw [p3, hempty]
  intro hc
  exact hmark2 (Option.some.inj hc)

/-- Witness for C8: player "O" clicks cell 4 after "X" took cell 0. -/
theorem click_places_mark_witness :
    (handleCellClick
      { board := ["X", "", "", "", "", "", "", "", ""],
        currentPlayer := PlayerRef.player2, isGameOver := false, cells := [],
        messageText := "Player O\x27s turn", log := [] } 4).board[(4 : Int).toNat]?
      = some "O" :=
  (click_places_mark
    { board := ["X", "", "", "", "", "", "", "", ""],
      currentPlayer := PlayerRef.player2, isGameOver := false, cells := [],
      messageText := "Player O\x27s turn", log := [] } 4
    (by decide) (by decide) (by decide) (by decide) (by decide)).2.1

/-- Claim C9: in a state that is not game over, a click on an index outside
[0,8] or on a non-empty cell returns the state as it was: board, current player,
game-over flag, message, cell nodes and the log of display calls (no render and
no message update is made). -/
theorem rejected_click_noop (s : State) (index : Int)
    (hgo : s.isGameOver = false) (hlen : s.board.length = 9)
    (h : index < 0 ∨ 8 < index ∨ ∃ m : String, s.board[index.toNat]? = some m ∧ m ≠ "") :
    handleCellClick s index = s ∧
      (handleCellClick s index).board = s.board ∧
      (handleCellClick s index).currentPlayer = s.currentPlayer ∧
      (handleCellClick s index).isGameOver = false ∧
      (handleCellClick s index).messageText = s.messageText ∧
      (handleCellClick s index).log = s.log := by
  have hs : handleCellClick s index = s :=
    handleCellClick_of_rejected s index hgo
      (placeMark_of_guard s.board index s.currentPlayer.mark
        ((guard_iff s.board index hlen).mpr h))
  rw [hs]
  exact ⟨rfl, rfl, rfl, hgo, rfl, rfl⟩

/-- Witness for C9: a click with index -1 in the state after `init`. -/
theorem rejected_click_noop_witness :
    handleCellClick (init (loadedState [] "")) (-1) = init (loadedState [] "") :=
  (rejected_click_noop (init (loadedState [] "")) (-1) (by decide) (by decide)
    (Or.inl (by decide))).1

/-- Claim C10: from every controller state, `resetGame` yields a board of nine
empty cells, `currentPlayer` equal to player 1 (named "Player X") and the
game-over flag false; it renders the empty board onto the cell nodes and then
shows the turn message naming player 1, these being the two display calls it
logs. -/
theorem resetGame_result (s : State) :
    (resetGame s).board = ["", "", "", "", "", "", "", "", ""] ∧
      (resetGame s).currentPlayer = PlayerRef.player1 ∧
      (resetGame s).currentPlayer.name = "Player X" ∧
      (resetGame s).isGameOver = false ∧
      (resetGame s).cells
        = s.cells.mapIdx (renderCell ["", "", "", "", "", "", "", "", ""]) ∧
      (resetGame s).messageText = "Player X\x27s turn!" ∧
      (resetGame s).log =
        s.log ++ [Effect.render ["", "", "", "", "", "", "", "", ""],
                  Effect.updateMessage "Player X\x27s turn!"] := by
  have hname : PlayerRef.player1.name ++ "\x27s turn!" = "Player X\x27s turn!" := by decide
  have hplayer : PlayerRef.player1.name = "Player X" := by decide
  refine ⟨rfl, rfl, hplayer, rfl, rfl, hname, ?_⟩
  simp [resetGame, updateMessage, render, Gameboard.getBoard, Gameboard.reset, hname]

/-! ## The outcomes of a click -/

/-- A click on a nine-cell board is either ignored (the state is returned as it
was) or it is a placement on an empty cell in [0,8] in a running game, with one
of three outcomes: a win, a tie, or the next turn. -/
theorem handleCellClick_cases (s : State) (index : Int) (hlen : s.board.length = 9) :
    handleCellClick s index = s ∨
    (s.isGameOver = false ∧ 0 ≤ index ∧ index ≤ 8 ∧ s.board[index.toNat]? = some "" ∧
      (handleCellClick s index).board = s.board.set index.toNat s.currentPlayer.mark ∧
      ((someLineComplete (handleCellClick s index).board ∧
          (handleCellClick s index).isGameOver = true ∧
          (handleCellClick s index).currentPlayer = s.currentPlayer ∧
          (handleCellClick s index).messageText = s.currentPlayer.name ++ " Wins!") ∨
       (¬ someLineComplete (handleCellClick s index).board ∧
          fullyFilled (handleCellClick s index).board ∧
          (handleCellClick s index).isGameOver = true ∧
          (handleCellClick s index).currentPlayer = s.currentPlayer ∧
          (handleCellClick s index).messageText = "It is Tie!") ∨
       (¬ someLineComplete (handleCellClick s index).board ∧
          ¬ fullyFilled (handleCellClick s index).board ∧
          (handleCellClick s index).isGameOver = false ∧
          (handleCellClick s index).currentPlayer ≠ s.currentPlayer ∧
          (handleCellClick s index).messageText =
            (handleCellClick s index).currentPlayer.name ++ "\x27s turn"))) := by
  cases hgo : s.isGameOver with
  | true => exact Or.inl (handleCellClick_of_gameOver s index hgo)
  | false =>
    by_cases hg : index < 0 ∨ 8 < index ∨ ∃ m : String, s.board[index.toNat]? = some m ∧ m ≠ ""
    · exact Or.inl (handleCellClick_of_rejected s index hgo
        (placeMark_eq_of_rejected s.board index s.currentPlayer.mark hlen hg))
    · right
      have hi0 : 0 ≤ index := by
        by_contra hc
        exact hg (Or.inl (by omega))
      have hi8 : index ≤ 8 := by
        by_contra hc
        exact hg (Or.inr (Or.inl (by omega)))
      have hlt : index.toNat < s.board.length := by omega
      have hie : s.board[index.toNat]? = some "" := by
        rw [List.getElem?_eq_getElem hlt]
        by_contra hc
        exact hg (Or.inr (Or.inr ⟨s.board[index.toNat], List.getElem?_eq_getElem hlt,
          fun he => hc (by rw [he])⟩))
      have hp := placeMark_eq_of_accepted s.board index s.currentPlayer.mark hlen hi0 hi8 hie
      have hlen2 : (s.board.set index.toNat s.currentPlayer.mark).length = 9 :=
        (set_shape s.board index s.currentPlayer.mark hlen hi0 hi8).1
      have hb := (handleCellClick_placed_frame s index _ hgo hp).1
      refine ⟨rfl, hi0, hi8, hie, hb, ?_⟩
      rw [hb, handleCellClick_of_placed s index _ hgo hp]
      by_cases hw : checkForWin (s.board.set index.toNat s.currentPlayer.mark) = true
      · left
        rw [if_pos hw]
        exact ⟨(checkForWin_iff _).mp hw, rfl, rfl, rfl⟩
      · rw [if_neg hw]
        have hnl : ¬ someLineComplete (s.board.set index.toNat s.currentPlayer.mark) :=
          fun h => hw ((checkForWin_iff _).mpr h)
        by_cases ht : checkForTie (s.board.set index.toNat s.currentPlayer.mark) = true
        · right
          left
          rw [if_pos ht]
          exact ⟨hnl, (checkForTie_iff _ hlen2).mp ht, rfl, rfl, rfl⟩
        · right
          right
          rw [if_neg ht]
          obtain ⟨a1, -, -, a4, -⟩ := switchTurn_render { s with
            board := s.board.set index.toNat s.currentPlayer.mark }
          exact ⟨hnl, fun h => ht ((checkForTie_iff _ hlen2).mpr h), by rw [a4]; exact hgo,
            a1, rfl⟩

/-! ## The invariant of reachable states -/

/-- A complete triple of `winConditions` makes `someLineComplete` hold. -/
theorem someLineComplete_of_mem (board : Board) (t : Nat × Nat × Nat)
    (ht : t ∈ winConditions) (hline : lineComplete board t.1 t.2.1 t.2.2) :
    someLineComplete board :=
  (checkForWin_iff board).mp ((checkForWinLoop_iff board winConditions).mpr ⟨t, ht, hline⟩)

/-- A triple that is complete after one cell has been written, and was not
complete before, holds the written mark in its three cells. -/
theorem line_after_write (before after : Board) (i : Nat) (mark : String)
    (hi : after[i]? = some mark) (hframe : ∀ j : Nat, j ≠ i → after[j]? = before[j]?)
    (a b c : Nat) (hold : ¬ lineComplete before a b c) (hnew : lineComplete after a b c) :
    after[a]? = some mark ∧ after[b]? = some mark ∧ after[c]? = some mark := by
  obtain ⟨m, hm, ha, hb, hc⟩ := hnew
  have hmark : m = mark := by
    by_contra hne
    have hne2 : ∀ j : Nat, after[j]? = some m → j ≠ i := by
      intro j hj hji
      rw [hji, hi] at hj
      exact hne (Option.some.inj hj).symm
    apply hold
    refine ⟨m, hm, ?_, ?_, ?_⟩
    · rw [← hframe a (hne2 a ha)]
      exact ha
    · rw [← hframe b (hne2 b hb)]
      exact hb
    · rw [← hframe c (hne2 c hc)]
      exact hc
  rw [← hmark]
  exact ⟨ha, hb, hc⟩

/-- The number of cells holding a mark after an empty cell has been written. -/
theorem count_after_write (board : Board) (i : Nat) (mark x : String)
    (hi : board[i]? = some "") (hx : x ≠ "") :
    (board.set i mark).count x = board.count x + (if mark = x then 1 else 0) := by
  have hlt : i < board.length := by
    by_contra hc
    rw [List.getElem?_eq_none (by omega)] at hi
    exact Option.noConfusion hi
  have hcell : board[i] = "" := by
    rw [List.getElem?_eq_getElem hlt] at hi
    exact Option.some.inj hi
  rw [List.count_set mark x board i hlt, hcell]
  have hbeq : (("" : String) == x) = false := by
    rw [beq_eq_false_iff_ne]
    exact fun h => hx h.symm
  simp [hbeq]

/-- A state with the empty board, player 1 to move and the game running
satisfies the invariant. -/
theorem invariant_of_fresh (s : State)
    (hb : s.board = ["", "", "", "", "", "", "", "", ""])
    (hp : s.currentPlayer = PlayerRef.player1) (hf : s.isGameOver = false) :
    Invariant s := by
  obtain ⟨board, player, over, cells, text, log⟩ := s
  simp only at hb hp hf
  subst hb hp hf
  unfold Invariant
  dsimp only
  exact ⟨by decide, by decide, by decide, by decide, by decide⟩

/-- The state after `init` satisfies the invariant. -/
theorem invariant_init (cells : List CellElement) (messageText : String) :
    Invariant (init (loadedState cells messageText)) :=
  invariant_of_fresh _ rfl rfl rfl

/-- The state after `resetGame` satisfies the invariant. -/
theorem invariant_resetGame (s : State) : Invariant (resetGame s) :=
  invariant_of_fresh _ rfl rfl rfl

/-- The handler `handleCellClick` preserves the invariant. -/
theorem invariant_handleCellClick (s : State) (index : Int) (h : Invariant s) :
    Invariant (handleCellClick s index) := by
  obtain ⟨hlen, hvalid, hflag, hlines, hcount⟩ := h
  rcases handleCellClick_cases s index hlen with hsame | ⟨hgo, h0, h8, hempty, hboard, hout⟩
  · rw [hsame]
    exact ⟨hlen, hvalid, hflag, hlines, hcount⟩
  · obtain ⟨s1, s2, s3⟩ := set_shape s.board index s.currentPlayer.mark hlen h0 h8
    have hnoline : ¬ someLineComplete s.board := by
      intro hl
      have hover := hflag.mpr (Or.inl hl)
      rw [hgo] at hover
      exact Bool.noConfusion hover
    have hmarkne : s.currentPlayer.mark ≠ "" := by
      cases s.currentPlayer <;> decide
    have hmark : s.currentPlayer.mark = "" ∨ s.currentPlayer.mark = "X" ∨
        s.currentPlayer.mark = "O" := by
      cases s.currentPlayer <;> decide
    have hcx := count_after_write s.board index.toNat s.currentPlayer.mark "X" hempty
      (by decide)
    have hco := count_after_write s.board index.toNat s.currentPlayer.mark "O" hempty
      (by decide)
    -- the three facts that depend on the outcome
    have hflag2 : (handleCellClick s index).isGameOver = true ↔
        (someLineComplete (handleCellClick s index).board ∨
          fullyFilled (handleCellClick s index).board) := by
      rcases hout with ⟨hl, hf, -, -⟩ | ⟨-, hfull, hf, -, -⟩ | ⟨hnl, hnf, hf, -, -⟩
      · exact ⟨fun _ => Or.inl hl, fun _ => hf⟩
      · exact ⟨fun _ => Or.inr hfull, fun _ => hf⟩
      · constructor
        · intro ht
          rw [hf] at ht
          exact Bool.noConfusion ht
        · rintro (hl | hfull)
          · exact absurd hl hnl
          · exact absurd hfull hnf
    have hturn : (handleCellClick s index).isGameOver = false →
        (handleCellClick s index).currentPlayer ≠ s.currentPlayer := by
      intro hrun
      rcases hout with ⟨-, hf, -, -⟩ | ⟨-, -, hf, -, -⟩ | ⟨-, -, -, hne, -⟩
      · rw [hf] at hrun
        exact Bool.noConfusion hrun
      · rw [hf] at hrun
        exact Bool.noConfusion hrun
      · exact hne
    have hlines2 : ∀ t ∈ winConditions,
        lineComplete (handleCellClick s index).board t.1 t.2.1 t.2.2 →
        (handleCellClick s index).board[t.1]? =
          some (handleCellClick s index).currentPlayer.mark := by
      intro t ht hline
      rcases hout with ⟨-, -, hsamePlayer, -⟩ | ⟨hnl, -, -, -, -⟩ | ⟨hnl, -, -, -, -⟩
      · rw [hsamePlayer]
        rw [hboard] at hline ⊢
        exact (line_after_write s.board _ index.toNat s.currentPlayer.mark s2 s3
          t.1 t.2.1 t.2.2 (fun hl => hnoline (someLineComplete_of_mem s.board t ht hl))
          hline).1
      · exact absurd (someLineComplete_of_mem _ t ht hline) hnl
      · exact absurd (someLineComplete_of_mem _ t ht hline) hnl
    refine ⟨?_, ?_, hflag2, hlines2, ?_⟩
    · rw [hboard]
      exact s1
    · rw [hboard]
      intro cell hc
      rcases List.mem_or_eq_of_mem_set hc with hmem | heq
      · exact hvalid cell hmem
      · rw [heq]
        exact hmark
    · rw [hboard, hcx, hco]
      rcases hcount with ⟨heq, hp⟩ | ⟨heq, hp⟩
      · right
        have hp1 := hp hgo
        refine ⟨?_, ?_⟩
        · have e1 : (if PlayerRef.player1.mark = "X" then 1 else 0) = 1 := by decide
          have e2 : (if PlayerRef.player1.mark = "O" then 1 else 0) = 0 := by decide
          rw [hp1, heq, e1, e2]
        · intro hrun
          have hne := hturn hrun
          rw [hp1] at hne
          cases hq : (handleCellClick s index).currentPlayer with
          | player1 => exact absurd hq hne
          | player2 => rfl
      · left
        have hp2 := hp hgo
        refine ⟨?_, ?_⟩
        · have e1 : (if PlayerRef.player2.mark = "X" then 1 else 0) = 0 := by decide
          have e2 : (if PlayerRef.player2.mark = "O" then 1 else 0) = 1 := by decide
          rw [hp2, heq, e1, e2]
        · intro hrun
          have hne := hturn hrun
          rw [hp2] at hne
          cases hq : (handleCellClick s index).currentPlayer with
          | player1 => rfl
          | player2 => exact absurd hq hne

/-- Every event handler preserves the invariant. -/
theorem invariant_dispatch (s : State) (e : Event) (h : Invariant s) :
    Invariant (dispatch s e) := by
  cases e with
  | cellClicked index => exact invariant_handleCellClick s index h
  | resetRequested => exact invariant_resetGame s

/-- A sequence of events preserves the invariant. -/
theorem invariant_runEvents (events : List Event) (s : State) (h : Invariant s) :
    Invariant (runEvents s events) := by
  induction events generalizing s with
  | nil => exact h
  | cons e rest ih => exact ih (dispatch s e) (invariant_dispatch s e h)

/-- Every reachable state satisfies the invariant. -/
theorem invariant_of_reachable (s : State) (h : Reachable s) : Invariant s := by
  obtain ⟨cells, messageText, events, rfl⟩ := h
  exact invariant_runEvents events _ (invariant_init cells messageText)

/-! ## Reachable states: board shape, scenario, messages -/

/-- Claim C11: in every state reachable from initialisation by cell clicks (with
any integer index) and resets, the board has exactly nine cells and every cell
is empty, "X" or "O". -/
theorem reachable_board_valid (s : State) (h : Reachable s) :
    s.board.length = 9 ∧ ∀ cell ∈ s.board, cell = "" ∨ cell = "X" ∨ cell = "O" := by
  obtain ⟨hlen, hvalid, -, -, -⟩ := invariant_of_reachable s h
  exact ⟨hlen, hvalid⟩

/-- Witness for C11: clicks on 0, -5, 4 and 99 with a reset in between. -/
theorem reachable_board_valid_witness :
    (runEvents (init (loadedState [] ""))
      [Event.cellClicked 0, Event.cellClicked (-5), Event.cellClicked 4,
       Event.resetRequested, Event.cellClicked 99, Event.cellClicked 8]).board.length = 9 :=
  (reachable_board_valid _ ⟨[], "",
    [Event.cellClicked 0, Event.cellClicked (-5), Event.cellClicked 4,
     Event.resetRequested, Event.cellClicked 99, Event.cellClicked 8], rfl⟩).1

/-- Claim C12: from the initial state, on any page, the clicks on index 0,
index 0 again and index 1 go as follows: the first places "X" and shows
"Player O's turn"; the second is rejected and returns the state as it was
(board and message included); the third places "O"; the final board is
["X","O","","","","","","",""], the current player is player 1 ("Player X") and
the game-over flag is false. -/
theorem scenario_zero_zero_one (cells : List CellElement) (messageText : String) :
    (handleCellClick (init (loadedState cells messageText)) 0).board
        = ["X", "", "", "", "", "", "", "", ""] ∧
      (handleCellClick (init (loadedState cells messageText)) 0).messageText
        = "Player O\x27s turn" ∧
      handleCellClick (handleCellClick (init (loadedState cells messageText)) 0) 0
        = handleCellClick (init (loadedState cells messageText)) 0 ∧
      (handleCellClick (handleCellClick (init (loadedState cells messageText)) 0) 0).board
        = ["X", "", "", "", "", "", "", "", ""] ∧
      (handleCellClick (handleCellClick (init (loadedState cells messageText)) 0) 0).messageText
        = "Player O\x27s turn" ∧
      (handleCellClick (handleCellClick (handleCellClick
          (init (loadedState cells messageText)) 0) 0) 1).board
        = ["X", "O", "", "", "", "", "", "", ""] ∧
      (handleCellClick (handleCellClick (handleCellClick
          (init (loadedState cells messageText)) 0) 0) 1).currentPlayer
        = PlayerRef.player1 ∧
      PlayerRef.player1.name = "Player X" ∧
      (handleCellClick (handleCellClick (handleCellClick
          (init (loadedState cells messageText)) 0) 0) 1).isGameOver = false := by
  have h1 : (handleCellClick (init (loadedState cells messageText)) 0).board
      = ["X", "", "", "", "", "", "", "", ""] := rfl
  have h1m : (handleCellClick (init (loadedState cells messageText)) 0).messageText
      = "Player O\x27s turn" := rfl
  have h1p : (handleCellClick (init (loadedState cells messageText)) 0).currentPlayer
      = PlayerRef.player2 := rfl
  have h1g : (handleCellClick (init (loadedState cells messageText)) 0).isGameOver
      = false := rfl
  generalize handleCellClick (init (loadedState cells messageText)) 0 = s1 at h1 h1m h1p h1g ⊢
  have hlen1 : s1.board.length = 9 := by
    rw [h1]
    rfl
  have h2 : handleCellClick s1 0 = s1 := by
    apply handleCellClick_of_rejected s1 0 h1g
    apply placeMark_eq_of_rejected s1.board 0 s1.currentPlayer.mark hlen1
    right
    right
    rw [h1]
    exact ⟨"X", rfl, by decide⟩
  rw [h2]
  have hempty : s1.board[(1 : Int).toNat]? = some "" := by
    rw [h1]
    rfl
  have hp := placeMark_eq_of_accepted s1.board 1 s1.currentPlayer.mark hlen1
    (by decide) (by decide) hempty
  have hset : s1.board.set (1 : Int).toNat s1.currentPlayer.mark
      = ["X", "O", "", "", "", "", "", "", ""] := by
    rw [h1, h1p]
    rfl
  rw [hset] at hp
  have h3 := handleCellClick_of_continue s1 1 h1g hlen1 (by rw [hp])
    (by rw [hp]; decide) (by rw [hp]; decide)
  rw [hp] at h3
  obtain ⟨a1, -, a3, a4, a5⟩ := switchTurn_render { s1 with
    board := ["X", "O", "", "", "", "", "", "", ""] }
  rw [h3]
  refine ⟨h1, h1m, rfl, h1, h1m, a5, a3 h1p, by decide, ?_⟩
  rw [a4]
  exact h1g

/-- An accepted placement is not an ignored click: the log grows. -/
theorem handleCellClick_ne_of_placed (s : State) (index : Int) (board : Board)
    (hgo : s.isGameOver = false)
    (hplace : Gameboard.placeMark s.board index s.currentPlayer.mark = (true, board)) :
    handleCellClick s index ≠ s := by
  intro hsame
  have hlog := (handleCellClick_placed_frame s index board hgo hplace).2.2
  rw [hsame] at hlog
  have hlength := congrArg List.length hlog
  simp at hlength

/-- Claim C13: for every successful click in a state that is not game over,
exactly one message is emitted, after the render of the resulting board: the
name of the player who just moved followed by " Wins!" when the resulting board
has a complete triple; "It is Tie!" when it has none and is full; otherwise the
name of the new current player, who is not the one who just moved, followed by
"'s turn". -/
theorem click_message (s : State) (index : Int)
    (hgo : s.isGameOver = false) (hlen : s.board.length = 9)
    (hplace : (Gameboard.placeMark s.board index s.currentPlayer.mark).1 = true) :
    (handleCellClick s index).board
        = (Gameboard.placeMark s.board index s.currentPlayer.mark).2 ∧
      (handleCellClick s index).log =
        s.log ++ [Effect.render (handleCellClick s index).board,
                  Effect.updateMessage (handleCellClick s index).messageText] ∧
      (someLineComplete (handleCellClick s index).board →
        (handleCellClick s index).messageText = s.currentPlayer.name ++ " Wins!") ∧
      (¬ someLineComplete (handleCellClick s index).board →
        fullyFilled (handleCellClick s index).board →
        (handleCellClick s index).messageText = "It is Tie!") ∧
      (¬ someLineComplete (handleCellClick s index).board →
        ¬ fullyFilled (handleCellClick s index).board →
        (handleCellClick s index).messageText =
            (handleCellClick s index).currentPlayer.name ++ "\x27s turn" ∧
          (handleCellClick s index).currentPlayer ≠ s.currentPlayer) := by
  have hp : Gameboard.placeMark s.board index s.currentPlayer.mark =
      (true, (Gameboard.placeMark s.board index s.currentPlayer.mark).2) := by
    rw [← hplace]
  obtain ⟨f1, -, f3⟩ := handleCellClick_placed_frame s index _ hgo hp
  refine ⟨f1, ?_, ?_⟩
  · rw [f3, f1]
  · rcases handleCellClick_cases s index hlen with hsame | ⟨-, -, -, -, -, hout⟩
    · exact absurd hsame (handleCellClick_ne_of_placed s index _ hgo hp)
    · rcases hout with ⟨hl, -, -, hm⟩ | ⟨hnl, hfull, -, -, hm⟩ | ⟨hnl, hnf, -, hne, hm⟩
      · exact ⟨fun _ => hm, fun h => absurd hl h, fun h => absurd hl h⟩
      · exact ⟨fun h => absurd h hnl, fun _ _ => hm, fun _ h => absurd hfull h⟩
      · exact ⟨fun h => absurd h hnl, fun _ h => absurd h hnf, fun _ _ => ⟨hm, hne⟩⟩

/-- Witness for C13: the opening move, which shows "Player O's turn". -/
theorem click_message_witness :
    (handleCellClick (init (loadedState [] "")) 4).log =
      (init (loadedState [] "")).log ++
        [Effect.render (handleCellClick (init (loadedState [] "")) 4).board,
         Effect.updateMessage (handleCellClick (init (loadedState [] "")) 4).messageText] :=
  (click_message (init (loadedState [] "")) 4 (by decide) (by decide) (by decide)).2.1

/-- Claim C15: in a state that is not game over, a successful click whose
resulting board contains a complete triple is a win, whether or not that board
is also full: the message is the mover's name followed by " Wins!" and not
"It is Tie!", the game-over flag is set and the current player is not switched. -/
theorem win_before_tie (s : State) (index : Int)
    (hgo : s.isGameOver = false)
    (hplace : (Gameboard.placeMark s.board index s.currentPlayer.mark).1 = true)
    (hline : someLineComplete (Gameboard.placeMark s.board index s.currentPlayer.mark).2) :
    (handleCellClick s index).messageText = s.currentPlayer.name ++ " Wins!" ∧
      (handleCellClick s index).messageText ≠ "It is Tie!" ∧
      (handleCellClick s index).isGameOver = true ∧
      (handleCellClick s index).currentPlayer = s.currentPlayer ∧
      (handleCellClick s index).log =
        s.log ++ [Effect.render (Gameboard.placeMark s.board index s.currentPlayer.mark).2,
                  Effect.updateMessage (s.currentPlayer.name ++ " Wins!")] := by
  have hp : Gameboard.placeMark s.board index s.currentPlayer.mark =
      (true, (Gameboard.placeMark s.board index s.currentPlayer.mark).2) := by
    rw [← hplace]
  have hwin : checkForWin (Gameboard.placeMark s.board index s.currentPlayer.mark).2 = true :=
    (checkForWin_iff _).mpr hline
  have hne : ∀ p : PlayerRef, p.name ++ " Wins!" ≠ "It is Tie!" := by
    intro p
    cases p <;> decide
  rw [handleCellClick_of_placed s index _ hgo hp, hwin]
  refine ⟨rfl, hne s.currentPlayer, rfl, rfl, ?_⟩
  simp [updateMessage, render, Gameboard.getBoard]

/-- Witness for C15: "X" fills the last cell and completes the diagonal 0-4-8. -/
theorem win_before_tie_witness :
    fullyFilled (Gameboard.placeMark ["X", "O", "X", "O", "X", "O", "O", "X", ""] 8 "X").2 ∧
      (handleCellClick
        { board := ["X", "O", "X", "O", "X", "O", "O", "X", ""],
          currentPlayer := PlayerRef.player1, isGameOver := false, cells := [],
          messageText := "Player X\x27s turn", log := [] } 8).messageText
        = "Player X Wins!" :=
  ⟨by decide,
   (win_before_tie
    { board := ["X", "O", "X", "O", "X", "O", "O", "X", ""],
      currentPlayer := PlayerRef.player1, isGameOver := false, cells := [],
      messageText := "Player X\x27s turn", log := [] } 8
    (by decide) (by decide) (by decide)).1⟩

/-- Claim C18: in every reachable state the game-over flag is set if and only if
`checkForWin` or `checkForTie` holds of the current board, that is, a triple is
complete or the nine cells are filled; no reachable state awaits a move on a
board that is won or full. -/
theorem gameOver_iff_won_or_full (s : State) (h : Reachable s) :
    (s.isGameOver = true ↔ (checkForWin s.board = true ∨ checkForTie s.board = true)) ∧
      (s.isGameOver = true ↔ (someLineComplete s.board ∨ fullyFilled s.board)) ∧
      (s.isGameOver = false →
        checkForWin s.board = false ∧ checkForTie s.board = false ∧
          ¬ someLineComplete s.board ∧ ¬ fullyFilled s.board) := by
  obtain ⟨hlen, -, hflag, -, -⟩ := invariant_of_reachable s h
  have hcode : s.isGameOver = true ↔
      (checkForWin s.board = true ∨ checkForTie s.board = true) := by
    rw [checkForWin_iff, checkForTie_iff s.board hlen]
    exact hflag
  refine ⟨hcode, hflag, ?_⟩
  intro hrun
  have hnot : ¬ (someLineComplete s.board ∨ fullyFilled s.board) := by
    intro hc
    have hover := hflag.mpr hc
    rw [hrun] at hover
    exact Bool.noConfusion hover
  have hnl : ¬ someLineComplete s.board := fun hl => hnot (Or.inl hl)
  have hnf : ¬ fullyFilled s.board := fun hf => hnot (Or.inr hf)
  refine ⟨?_, ?_, hnl, hnf⟩
  · rw [Bool.eq_false_iff, Ne, checkForWin_iff]
    exact hnl
  · rw [Bool.eq_false_iff, Ne, checkForTie_iff s.board hlen]
    exact hnf

/-- Witness for C18: after "X" has taken the top row the flag is set. -/
theorem gameOver_iff_won_or_full_witness :
    (runEvents (init (loadedState [] ""))
      [Event.cellClicked 0, Event.cellClicked 3, Event.cellClicked 1,
       Event.cellClicked 4, Event.cellClicked 2]).isGameOver = true :=
  ((gameOver_iff_won_or_full _ ⟨[], "",
    [Event.cellClicked 0, Event.cellClicked 3, Event.cellClicked 1,
     Event.cellClicked 4, Event.cellClicked 2], rfl⟩).1).mpr (Or.inl (by decide))

/-- Claim C19: in every reachable state the number of "X" cells minus the number
of "O" cells is 0 or 1; while the game is not over, the current player is
player 1 ("Player X", mark "X") exactly when the two counts are equal and
player 2 ("Player O", mark "O") exactly when "X" has one more. -/
theorem mark_balance (s : State) (h : Reachable s) :
    (((s.board.count "X" : Int) - (s.board.count "O" : Int) = 0) ∨
      ((s.board.count "X" : Int) - (s.board.count "O" : Int) = 1)) ∧
      (s.isGameOver = false →
        (s.currentPlayer = PlayerRef.player1 ↔ s.board.count "X" = s.board.count "O") ∧
        (s.currentPlayer = PlayerRef.player2 ↔
          s.board.count "X" = s.board.count "O" + 1)) ∧
      PlayerRef.player1.deref = Player.mk "Player X" "X" ∧
      PlayerRef.player2.deref = Player.mk "Player O" "O" := by
  obtain ⟨-, -, -, -, hcount⟩ := invariant_of_reachable s h
  refine ⟨?_, ?_, rfl, rfl⟩
  · rcases hcount with ⟨heq, -⟩ | ⟨heq, -⟩
    · left
      omega
    · right
      omega
  · intro hrun
    rcases hcount with ⟨heq, hp⟩ | ⟨heq, hp⟩
    · have hp1 := hp hrun
      rw [hp1]
      exact ⟨⟨fun _ => heq, fun _ => rfl⟩,
        ⟨fun hc => PlayerRef.noConfusion hc, fun hc => by omega⟩⟩
    · have hp2 := hp hrun
      rw [hp2]
      exact ⟨⟨fun hc => PlayerRef.noConfusion hc, fun hc => by omega⟩,
        ⟨fun _ => heq, fun _ => rfl⟩⟩

/-- Witness for C19: after clicks on 0, 4 and 8 it is player 2 who moves. -/
theorem mark_balance_witness :
    (runEvents (init (loadedState [] ""))
      [Event.cellClicked 0, Event.cellClicked 4, Event.cellClicked 8]).currentPlayer
      = PlayerRef.player2 :=
  (((mark_balance _ ⟨[], "",
    [Event.cellClicked 0, Event.cellClicked 4, Event.cellClicked 8], rfl⟩).2.1
      (by decide)).2).mpr (by decide)

/-! ## The owner of the complete triples -/

/-- The win messages of the two players differ, and neither is the tie message
or a turn message. -/
theorem wins_message_names (p q : PlayerRef) :
    (q.name ++ " Wins!" = p.name ++ " Wins!" → p = q) ∧
      "It is Tie!" ≠ p.name ++ " Wins!" ∧
      q.name ++ "\x27s turn" ≠ p.name ++ " Wins!" := by
  cases p <;> cases q <;> decide

/-- The three cells of a complete triple hold the mark found in the first. -/
theorem lineComplete_cells (board : Board) (a b c : Nat) (mark : String)
    (hline : lineComplete board a b c) (ha : board[a]? = some mark) :
    board[a]? = some mark ∧ board[b]? = some mark ∧ board[c]? = some mark := by
  obtain ⟨m, -, h1, h2, h3⟩ := hline
  have hm : m = mark := by
    rw [h1] at ha
    exact Option.some.inj ha
  rw [← hm]
  exact ⟨h1, h2, h3⟩

/-- The result of the loop of `checkForWin` does not depend on the order of the
conditions. -/
theorem checkForWinLoop_perm (board : Board) (conditions : List (Nat × Nat × Nat))
    (hperm : conditions.Perm winConditions) :
    checkForWinLoop board conditions = checkForWin board := by
  rw [Bool.eq_iff_iff, checkForWinLoop_iff]
  unfold checkForWin
  rw [checkForWinLoop_iff]
  constructor
  · rintro ⟨t, ht, hl⟩
    exact ⟨t, hperm.mem_iff.mp ht, hl⟩
  · rintro ⟨t, ht, hl⟩
    exact ⟨t, hperm.mem_iff.mpr ht, hl⟩

/-- Claim C14: in every reachable state, when a click emits the message of a win
for a player, that player is the one who just moved, every complete triple on
the resulting board holds that player's mark in its three cells, and the win is
found whatever the order in which the eight triples are checked; no reachable
board has a triple of "X" and a triple of "O"; and on every reachable board the
result of `checkForWin` is the same for every order of the triples. -/
theorem win_triples_of_mover (s : State) (hreach : Reachable s) :
    (∀ (index : Int) (p : PlayerRef),
      (handleCellClick s index).log =
        s.log ++ [Effect.render (handleCellClick s index).board,
                  Effect.updateMessage (p.name ++ " Wins!")] →
      p = s.currentPlayer ∧
        (∀ t ∈ winConditions, lineComplete (handleCellClick s index).board t.1 t.2.1 t.2.2 →
          (handleCellClick s index).board[t.1]? = some p.mark ∧
          (handleCellClick s index).board[t.2.1]? = some p.mark ∧
          (handleCellClick s index).board[t.2.2]? = some p.mark) ∧
        (∀ conditions : List (Nat × Nat × Nat), conditions.Perm winConditions →
          checkForWinLoop (handleCellClick s index).board conditions = true)) ∧
    ¬ ((∃ t ∈ winConditions, s.board[t.1]? = some "X" ∧ s.board[t.2.1]? = some "X" ∧
          s.board[t.2.2]? = some "X") ∧
       (∃ t ∈ winConditions, s.board[t.1]? = some "O" ∧ s.board[t.2.1]? = some "O" ∧
          s.board[t.2.2]? = some "O")) ∧
    (∀ conditions : List (Nat × Nat × Nat), conditions.Perm winConditions →
      checkForWinLoop s.board conditions = checkForWin s.board) := by
  have hinv := invariant_of_reachable s hreach
  obtain ⟨hlen, -, -, hlines, -⟩ := hinv
  refine ⟨?_, ?_, fun conditions hperm => checkForWinLoop_perm s.board conditions hperm⟩
  · intro index p hlog
    obtain ⟨-, -, -, hlines2, -⟩ := invariant_handleCellClick s index (invariant_of_reachable s hreach)
    rcases handleCellClick_cases s index hlen with hsame | ⟨hgo, h0, h8, hempty, -, hout⟩
    · rw [hsame] at hlog
      have hlength := congrArg List.length hlog
      simp at hlength
    · have hp := placeMark_eq_of_accepted s.board index s.currentPlayer.mark hlen h0 h8 hempty
      have hframe := (handleCellClick_placed_frame s index _ hgo hp).2.2
      rw [hframe] at hlog
      have htail := List.append_cancel_left hlog
      simp only [List.cons.injEq, Effect.render.injEq, Effect.updateMessage.injEq,
        and_true] at htail
      have hmsg : (handleCellClick s index).messageText = p.name ++ " Wins!" := htail.2
      rcases hout with ⟨hl, -, hsamePlayer, hm⟩ | ⟨-, -, -, -, hm⟩ | ⟨-, -, -, -, hm⟩
      · rw [hm] at hmsg
        have hpq : p = s.currentPlayer := (wins_message_names p s.currentPlayer).1 hmsg
        refine ⟨hpq, ?_, ?_⟩
        · intro t ht hline
          have hfirst := hlines2 t ht hline
          rw [hsamePlayer, ← hpq] at hfirst
          exact lineComplete_cells _ t.1 t.2.1 t.2.2 p.mark hline hfirst
        · intro conditions hperm
          rw [checkForWinLoop_perm _ conditions hperm]
          exact (checkForWin_iff _).mpr hl
      · rw [hm] at hmsg
        exact absurd hmsg (wins_message_names p s.currentPlayer).2.1
      · rw [hm] at hmsg
        exact absurd hmsg (wins_message_names p _).2.2
  · rintro ⟨⟨t1, ht1, hx1, hx2, hx3⟩, ⟨t2, ht2, ho1, ho2, ho3⟩⟩
    have hx := hlines t1 ht1 ⟨"X", by decide, hx1, hx2, hx3⟩
    have ho := hlines t2 ht2 ⟨"O", by decide, ho1, ho2, ho3⟩
    rw [hx1] at hx
    rw [ho1] at ho
    have hxo : "X" = "O" := by
      rw [Option.some.inj hx, Option.some.inj ho]
    exact absurd hxo (by decide)

/-- Witness for C14: after clicks on 0, 3, 1, 4 the click on 2 wins for "X". -/
theorem win_triples_of_mover_witness :
    PlayerRef.player1 =
      (runEvents (init (loadedState [] ""))
        [Event.cellClicked 0, Event.cellClicked 3, Event.cellClicked 1,
         Event.cellClicked 4]).currentPlayer :=
  ((win_triples_of_mover _ ⟨[], "",
    [Event.cellClicked 0, Event.cellClicked 3, Event.cellClicked 1,
     Event.cellClicked 4], rfl⟩).1 2 PlayerRef.player1 (by decide)).1

/-! ## The turn messages -/

/-- Claim C16: the turn message emitted by `init` and the one emitted by
`resetGame` are the same string, and that string is player 1's name followed by
the phrase "'s turn" (here with "!" after it), the same name-then-"'s turn"
form as the message emitted by `switchTurn` after a non-terminal move, which is
the new current player's name followed by "'s turn". -/
theorem turn_message_forms (cells : List CellElement) (messageText : String) (s : State) :
    (init (loadedState cells messageText)).log =
        [Effect.render ["", "", "", "", "", "", "", "", ""],
         Effect.updateMessage (init (loadedState cells messageText)).messageText] ∧
      (resetGame s).log =
        s.log ++ [Effect.render ["", "", "", "", "", "", "", "", ""],
                  Effect.updateMessage (resetGame s).messageText] ∧
      (init (loadedState cells messageText)).messageText = (resetGame s).messageText ∧
      (∃ suffix : String, (init (loadedState cells messageText)).messageText
        = (PlayerRef.player1.name ++ "\x27s turn") ++ suffix) ∧
      (init (loadedState cells messageText)).currentPlayer = PlayerRef.player1 ∧
      (resetGame s).currentPlayer = PlayerRef.player1 ∧
      PlayerRef.player1.name = "Player X" ∧
      (init (loadedState cells messageText)).messageText = "Player X\x27s turn!" ∧
      (∃ suffix : String, (switchTurn s).messageText
        = ((switchTurn s).currentPlayer.name ++ "\x27s turn") ++ suffix) ∧
      (switchTurn s).messageText = (switchTurn s).currentPlayer.name ++ "\x27s turn" ∧
      (switchTurn s).log =
        s.log ++ [Effect.updateMessage (switchTurn s).messageText] := by
  have hname : PlayerRef.player1.name ++ "\x27s turn!"
      = (PlayerRef.player1.name ++ "\x27s turn") ++ "!" := by decide
  have hlit : PlayerRef.player1.name ++ "\x27s turn!" = "Player X\x27s turn!" := by
    decide
  have hplayer : PlayerRef.player1.name = "Player X" := by decide
  have hinit : (init (loadedState cells messageText)).messageText
      = PlayerRef.player1.name ++ "\x27s turn!" := rfl
  have hswitch : (switchTurn s).messageText
      = (switchTurn s).currentPlayer.name ++ "\x27s turn" := rfl
  refine ⟨rfl, ?_, rfl, ⟨"!", ?_⟩, rfl, rfl, hplayer, ?_, ⟨"", ?_⟩, hswitch, rfl⟩
  · simp [resetGame, updateMessage, render, Gameboard.getBoard, Gameboard.reset]
  · rw [hinit, hname]
  · rw [hinit, hlit]
  · rw [hswitch]
    simp

/-! ## Rendering -/

/-- Membership in the class list after `classList.remove`. -/
theorem mem_classListRemove (classList tokens : List String) (t : String) :
    t ∈ classListRemove classList tokens ↔ t ∈ classList ∧ t ∉ tokens := by
  unfold classListRemove
  simp

/-- Membership in the class list after `classList.add`. -/
theorem mem_classListAdd (classList tokens : List String) (t : String) :
    t ∈ classListAdd classList tokens ↔ t ∈ classList ∨ t ∈ tokens := by
  unfold classListAdd
  induction tokens generalizing classList with
  | nil => simp
  | cons a rest ih =>
    rw [List.foldl_cons, ih]
    by_cases h : a ∈ classList
    · have hc : classList.contains a = true := by simpa using h
      rw [if_pos hc]
      constructor
      · rintro (h1 | h1)
        · exact Or.inl h1
        · exact Or.inr (List.mem_cons_of_mem a h1)
      · rintro (h1 | h1)
        · exact Or.inl h1
        · rcases List.mem_cons.mp h1 with h2 | h2
          · exact Or.inl (h2 ▸ h)
          · exact Or.inr h2
    · have hc : ¬ classList.contains a = true := by simpa using h
      rw [if_neg hc]
      simp only [List.mem_append, List.mem_singleton, List.mem_cons]
      tauto

/-- The node produced by the callback of `render` for a cell holding `value`. -/
theorem renderCell_spec (board : Board) (i : Nat) (cell : CellElement) (value : String)
    (hv : board[i]? = some value) :
    (renderCell board i cell).textContent = value ∧
      (∀ t : String, t ∈ (renderCell board i cell).classList ↔
        ((t ∈ cell.classList ∧ t ≠ "X" ∧ t ≠ "O" ∧ t ≠ "marked") ∨
          (value ≠ "" ∧ (t = value ∨ t = "marked")))) := by
  unfold renderCell
  rw [hv]
  by_cases he : value = ""
  · subst he
    simp [mem_classListRemove]
  · have hne : ¬ (some value = some "") := fun h => he (Option.some.inj h)
    simp only [ne_eq, hne, not_false_eq_true, if_true]
    refine ⟨trivial, ?_⟩
    intro t
    rw [mem_classListAdd, mem_classListRemove]
    simp [he]

/-- Claim C17: for every nine-cell board over empty, "X" and "O", and every
position i in [0,8] that the page has, `render` sets the text of node i to
board[i]; for a non-empty cell the node ends with its mark and 'marked' among
its classes and without the other mark; for an empty cell it ends with empty
text and with none of 'X', 'O', 'marked'; every other class of the node is kept
as it was, whatever the classes before. -/
theorem render_cell (s : State) (i : Nat) (before : CellElement)
    (hlen : s.board.length = 9) (hvalid : validCells s.board) (hi : i < 9)
    (hbefore : s.cells[i]? = some before) :
    ∃ (value : String) (after : CellElement),
      s.board[i]? = some value ∧ (render s).cells[i]? = some after ∧
      after.textContent = value ∧
      (value ≠ "" →
        value ∈ after.classList ∧ "marked" ∈ after.classList ∧
        (value = "X" → "O" ∉ after.classList) ∧ (value = "O" → "X" ∉ after.classList)) ∧
      (value = "" →
        after.textContent = "" ∧ "X" ∉ after.classList ∧ "O" ∉ after.classList ∧
        "marked" ∉ after.classList) ∧
      (∀ t : String, t ≠ "X" → t ≠ "O" → t ≠ "marked" →
        (t ∈ after.classList ↔ t ∈ before.classList)) ∧
      (render s).cells.length = s.cells.length ∧ (render s).board = s.board := by
  have hlt : i < s.board.length := by omega
  have hv : s.board[i]? = some s.board[i] := List.getElem?_eq_getElem hlt
  have hcases : s.board[i] = "" ∨ s.board[i] = "X" ∨ s.board[i] = "O" :=
    hvalid _ (List.getElem_mem hlt)
  obtain ⟨htext, hclass⟩ := renderCell_spec s.board i before s.board[i] hv
  have hafter : (render s).cells[i]? = some (renderCell s.board i before) := by
    unfold render
    simp [Gameboard.getBoard, List.getElem?_mapIdx, hbefore]
  refine ⟨s.board[i], renderCell s.board i before, hv, hafter, htext, ?_, ?_, ?_, ?_, rfl⟩
  · intro hne
    refine ⟨(hclass _).mpr (Or.inr ⟨hne, Or.inl rfl⟩),
      (hclass _).mpr (Or.inr ⟨hne, Or.inr rfl⟩), ?_, ?_⟩
    · intro hx hmem
      rcases (hclass _).mp hmem with ⟨-, -, h2, -⟩ | ⟨-, h2 | h2⟩
      · exact h2 rfl
      · rw [hx] at h2
        exact absurd h2 (by decide)
      · exact absurd h2 (by decide)
    · intro ho hmem
      rcases (hclass _).mp hmem with ⟨-, h2, -, -⟩ | ⟨-, h2 | h2⟩
      · exact h2 rfl
      · rw [ho] at h2
        exact absurd h2 (by decide)
      · exact absurd h2 (by decide)
  · intro he
    refine ⟨by rw [htext, he], ?_, ?_, ?_⟩
    · intro hmem
      rcases (hclass _).mp hmem with ⟨-, h2, -, -⟩ | ⟨h2, -⟩
      · exact h2 rfl
      · exact h2 he
    · intro hmem
      rcases (hclass _).mp hmem with ⟨-, -, h2, -⟩ | ⟨h2, -⟩
      · exact h2 rfl
      · exact h2 he
    · intro hmem
      rcases (hclass _).mp hmem with ⟨-, -, -, h2⟩ | ⟨h2, -⟩
      · exact h2 rfl
      · exact h2 he
  · intro t h1 h2 h3
    rw [hclass]
    constructor
    · rintro (⟨hm, -⟩ | ⟨hne, h4 | h4⟩)
      · exact hm
      · rcases hcases with h5 | h5 | h5
        · exact absurd h5 hne
        · exact absurd (h4.trans h5) h1
        · exact absurd (h4.trans h5) h2
      · exact absurd h4 h3
    · intro hm
      exact Or.inl ⟨hm, h1, h2, h3⟩
  · unfold render
    simp

/-- Witness for C17: node 0 showed "O" and is rendered for a board with "X" in
cell 0. -/
theorem render_cell_witness :
    ∃ (value : String) (after : CellElement),
      (["X", "", "", "", "O", "", "", "", ""] : Board)[0]? = some value ∧
      (render
        { board := ["X", "", "", "", "O", "", "", "", ""],
          currentPlayer := PlayerRef.player1, isGameOver := false,
          cells := [CellElement.mk "O" ["cell", "O", "marked"]],
          messageText := "", log := [] }).cells[0]? = some after ∧
      after.textContent = value := by
  obtain ⟨value, after, h1, h2, h3, -⟩ := render_cell
    { board := ["X", "", "", "", "O", "", "", "", ""],
      currentPlayer := PlayerRef.player1, isGameOver := false,
      cells := [CellElement.mk "O" ["cell", "O", "marked"]],
      messageText := "", log := [] } 0 (CellElement.mk "O" ["cell", "O", "marked"])
    (by decide) (by decide) (by decide) (by decide)
  exact ⟨value, after, h1, h2, h3⟩

end TicTacToe
